import Mathlib

/-!
Verification of the TableJs view-state engine against its specification.

The definitions below are a shallow embedding of the relevant source
functions (`createPaginationCeiling`, `processPagination`, `toLimit`,
`toSearch`, `toFilter`, `toSort`, the `table.properties` proxy trap, and
`validateVariable`/`validateFallback`), together with the remote
dispatch/response behaviour of `toInitialize`/`HttpRequest`.

Modelling conventions:
- JS numbers that can be NaN are `Option ℤ` (`none` = NaN); `Math.min` /
  `Math.max` propagate NaN.
- Strings are `List Char`; case-insensitive matching lowers characters.
- The stateful behaviour of a reused global-flag `RegExp` (its
  `lastIndex`) is modelled explicitly in `regexTestG`.
- DOM rows/cells are records carrying the data the engine reads
  (text content, cell index by position, visibility, dummy-row class).
-/

namespace TableJs

/-- `toNumber(value, fallback)` from the source, restricted to integer
values: falsy (`0`) and NaN inputs yield the fallback. -/
def jsToNumberZ (v : ℤ) (fb : ℤ) : ℤ :=
  if v = 0 then fb else v

/-- `toNumber` on a possibly-NaN value (`none` = NaN). -/
def jsToNumber (v : Option ℤ) (fb : ℤ) : ℤ :=
  match v with
  | none => fb
  | some x => jsToNumberZ x fb

/-- `Math.min`, NaN-propagating. -/
def jsMin (a b : Option ℤ) : Option ℤ :=
  match a, b with
  | some x, some y => some (min x y)
  | _, _ => none

/-- `Math.max`, NaN-propagating. -/
def jsMax (a b : Option ℤ) : Option ℤ :=
  match a, b with
  | some x, some y => some (max x y)
  | _, _ => none

/-! ### Pagination page clamping (`toLimit` lines 1225-1236, `processPagination` lines 301-308)

Both sites clamp a page number against a page count
`pagingLength = Math.round(total_rows / limit)`, which can be `0` (small
`total_rows`) or NaN (`total_rows` undefined, or limit `"*"`); the page
count is the `Option ℤ` parameter below. -/

/-- The page update of `toLimit` (numeric-limit branch):
`currentPage = Math.min(Math.max(1, prev), pagingLength)`, then
`page = isNaN(currentPage) ? prev : currentPage`. -/
def toLimitPage (prev : ℤ) (pagingLength : Option ℤ) : ℤ :=
  match jsMin (jsMax (some 1) (some prev)) pagingLength with
  | none => prev
  | some c => c

/-- The whole page update of `toLimit`, including the `"*"` guard
(`limitSize === DEFAULT.LIMIT ? DEFAULT.PAGE : ...`); `none` stands for
the `"*"` (ALL) limit. -/
def toLimitNewPage (limitIsAll : Bool) (prev : ℤ) (pagingLength : Option ℤ) : ℤ :=
  if limitIsAll then 1 else toLimitPage prev pagingLength

/-- The page field computed by `processPagination`:
`toNumber(Math.min(Math.max(1, page), Math.round(total_rows/limit)), 1)`. -/
def processPaginationPage (page : ℤ) (pageCount : Option ℤ) : ℤ :=
  jsToNumber (jsMin (jsMax (some 1) (some page)) pageCount) 1

/-- The specification-side clamp formula `max(1, min(requested, pageCount))`. -/
def clampPageSpec (requested pageCount : ℤ) : ℤ :=
  max 1 (min requested pageCount)

/-! ### Pagination ceiling (`createPaginationCeiling`, lines 35-42) -/

/-- A pagination limit candidate: a number, or the `"*"` (ALL) sentinel. -/
inductive PItem where
  | all : PItem
  | num (n : ℤ) : PItem
deriving DecidableEq, Repr

/-- The JS sort comparator `(a, b) => a - b` interpreted as a `≤` test:
for two numbers it is numeric order; any comparison involving `"*"`
evaluates to NaN, which `Array.prototype.sort` treats as `0` (a tie), so
`"*"` compares as equal to (hence `≤`) everything. -/
def pitemLe (a b : PItem) : Prop :=
  match a, b with
  | PItem.num x, PItem.num y => x ≤ y
  | _, _ => True

instance : DecidableRel pitemLe := by
  intro a b
  cases a <;> cases b <;> simp [pitemLe] <;> infer_instance

/-- `array.slice().sort((a, b) => a - b)`: a stable sort under the JS
comparator (`Array.prototype.sort` is required to be stable). -/
def sortItems (l : List PItem) : List PItem :=
  List.insertionSort pitemLe l

/-- `(item) => item >= number`: the `"*"` sentinel coerces to NaN, so the
comparison is false for it. -/
def itemGE (m : ℤ) : PItem → Bool
  | PItem.all => false
  | PItem.num x => decide (m ≤ x)

/-- `createPaginationCeiling(n, array)`; `n = none` models a NaN input
(the `isNaN(+n)` guard returns the array unchanged). -/
def createPaginationCeiling (n : Option ℤ) (array : List PItem) : List PItem :=
  match n with
  | none => array
  | some m =>
    let sorted := sortItems array
    match sorted.findIdx? (itemGE m) with
    | some i => sorted.take (i + 1)
    | none => sorted.take array.length

/-! ### Search and filter row matching (`toSearch` lines 1925-2051, `toFilter` lines 1044-1129)

A cell is read through `td.textContent`; a cell participates when its
`cellIndex` (its position) is not excluded and it is visible. A row with
the dummy class is the synthetic "no results" placeholder. -/

/-- A table cell: its text and its visibility. -/
structure SCell where
  text : List Char
  visible : Bool
deriving DecidableEq, Repr

/-- A table row in the search/filter model; `isDummy` is the
`CLASS.TR.DUMMY` marker of the synthetic placeholder row. -/
structure SRow where
  isDummy : Bool
  cells : List SCell
deriving DecidableEq, Repr

/-- Lower-casing used to model the `i` regex flag. -/
def lowerL (s : List Char) : List Char :=
  s.map Char.toLower

/-- Does the (escaped, hence literal) keyword occur in `s` at offset `i`,
case-insensitively? -/
def occursAt (kw s : List Char) (i : ℕ) : Bool :=
  (lowerL kw).isPrefixOf ((lowerL s).drop i)

/-- Leftmost occurrence of the keyword at an offset `≥ p`, the way a
global-flag regex searches from `lastIndex = p` (no occurrence is found
past the end of the string). -/
def findFrom (kw s : List Char) (p : ℕ) : Option ℕ :=
  (List.range' p (s.length + 1 - p)).find? (occursAt kw s)

/-- `pattern.test(s)` for the reused `new RegExp(escaped, "gi")` of
`toSearch`: searches from `lastIndex = p`; on a match `lastIndex` becomes
the end of the match, on a miss it resets to `0`. Returns the verdict and
the new `lastIndex`. -/
def regexTestG (kw s : List Char) (p : ℕ) : Bool × ℕ :=
  match findFrom kw s p with
  | some i => (true, i + kw.length)
  | none => (false, 0)

/-- The text the row matcher sees: texts of the visible, non-excluded
cells joined with `" "` (cells are indexed by position, as `cellIndex`). -/
def rowText (ex : List ℕ) (r : SRow) : List Char :=
  List.intercalate [' ']
    (((r.cells.enum.filter fun p => !(ex.contains p.1) && p.2.visible).map
      fun p => p.2.text))

/-- The per-row verdicts of the `toSearch` reduce loop: one reused
global regex is threaded through all rows, carrying its `lastIndex`. -/
def searchVerdicts (kw : List Char) (ex : List ℕ) : List SRow → ℕ → List Bool
  | [], _ => []
  | r :: rs, p =>
    let m := regexTestG kw (rowText ex r) p
    m.1 :: searchVerdicts kw ex rs m.2

/-- Specification-side predicate: the keyword occurs case-insensitively
somewhere in `s`. -/
def containsCI (kw s : List Char) : Bool :=
  (List.range (s.length + 1)).any (occursAt kw s)

/-- `DEFAULT.NO_RESULT_MESSAGE`. -/
def noResultMessage : List Char :=
  "No matching records found".toList

/-- The synthetic placeholder row appended on zero matches. -/
def dummyRow : SRow :=
  { isDummy := true, cells := [{ text := noResultMessage, visible := true }] }

/-- The pagination summary record produced by `toSearch`. -/
structure PaginationInfo where
  current_page : ℤ
  total_page : ℤ
  start_item : ℤ
  end_item : ℤ
  total_rows : ℤ
deriving DecidableEq, Repr

/-- Everything the local branch of `toSearch` computes. -/
structure SearchOutcome where
  verdicts : List Bool
  result : ℕ
  rowsAfter : List SRow
  info : PaginationInfo
deriving DecidableEq, Repr

/-- The local branch of `toSearch`: runs the stateful match over every
tbody row (dummy included), counts matches, appends/removes the
placeholder, and produces `paginationInfo`. `dum` is queried before the
placeholder is appended, so it reflects a placeholder left by a previous
search. -/
def toSearchLocal (kw : List Char) (ex : List ℕ) (rows : List SRow) : SearchOutcome :=
  let verdicts := searchVerdicts kw ex rows 0
  let result := verdicts.countP fun b => b
  let dum := rows.any fun r => r.isDummy
  let rowsAfter :=
    if result < 1 then (if dum then rows else rows ++ [dummyRow])
    else rows.eraseP fun r => r.isDummy
  { verdicts := verdicts
    result := result
    rowsAfter := rowsAfter
    info :=
      { current_page := 1
        total_page := 1
        start_item := jsToNumberZ (min (result : ℤ) 1) 0
        end_item := jsToNumberZ (if dum then max 0 ((result : ℤ) - 1) else (result : ℤ)) 0
        total_rows := jsToNumberZ (if dum then (rows.length : ℤ) - 1 else (rows.length : ℤ)) 0 } }

/-- The per-row verdict of the `toFilter` reduce loop: non-empty filter
values are escaped to literal patterns, and each test builds a fresh
regex (`new RegExp(pattern)`), so the match is stateless:
`every(pattern => textContents.some(text => refresh.test(text)))`. -/
def toFilterVerdict (filters : List (List Char × List Char)) (ex : List ℕ)
    (r : SRow) : Bool :=
  let pats := (filters.map Prod.snd).filter fun v => !v.isEmpty
  let texts := (r.cells.enum.filter fun p => !(ex.contains p.1) && p.2.visible).map
    fun p => p.2.text
  pats.all fun pat => texts.any fun t => containsCI pat t

/-! ### Sort click cycle (`toSort` lines 2188-2249)

The click handler of a sortable column: if the header currently carries
the DESCENDING class, the rows are re-appended in ascending `row.index`
order and the class is removed; otherwise a comparator sort runs, every
header's ASCENDING/DESCENDING classes are cleared, and the clicked header
gets the new direction's class. -/

/-- A data row of the sort model: the ingestion ordinal `row.index` and
the cell texts. -/
structure SortRow where
  index : ℕ
  cells : List (List Char)
deriving DecidableEq, Repr

/-- Ascending `row.index` order (`(a, b) => a.index - b.index`). -/
def idxLe (a b : SortRow) : Prop :=
  a.index ≤ b.index

instance : DecidableRel idxLe := fun a b => Nat.decLe a.index b.index

instance : IsTotal SortRow idxLe :=
  ⟨fun a b => Nat.le_total a.index b.index⟩

instance : IsTrans SortRow idxLe :=
  ⟨fun _ _ _ h h' => Nat.le_trans h h'⟩

/-- The comparator sort order on rows for a click on column `c` with
direction `dir` (`currentSort ? comparison : -comparison`), parameterised
by the `localeCompare` comparison `cmp` on trimmed cell text. -/
def compLe (cmp : List Char → List Char → ℤ) (c : ℕ) (dir : Bool)
    (a b : SortRow) : Prop :=
  (if dir then cmp (a.cells.getD c []) (b.cells.getD c [])
   else -(cmp (a.cells.getD c []) (b.cells.getD c []))) ≤ 0

instance (cmp : List Char → List Char → ℤ) (c : ℕ) (dir : Bool) :
    DecidableRel (compLe cmp c dir) := fun a b => by
  unfold compLe; infer_instance

/-- A column's sort marker: `none` = no class, `some true` = the
ASCENDING class, `some false` = the DESCENDING class. -/
abbrev Marker := Option Bool

/-- The mutable state the sort click handler reads and writes: the tbody
row order and each header's marker classes. -/
structure SortState where
  rows : List SortRow
  markers : List Marker
deriving DecidableEq, Repr

/-- The marker of column `c` (an absent header carries no class). -/
def markerAt (s : SortState) (c : ℕ) : Marker :=
  s.markers.getD c none

/-- One click on sortable column `c` (`toSort` local click listener). -/
def clickSort (asc : Bool) (cmp : List Char → List Char → ℤ)
    (s : SortState) (c : ℕ) : SortState :=
  if markerAt s c = some false then
    { rows := List.insertionSort idxLe s.rows
      markers := s.markers.set c none }
  else
    let dir := if markerAt s c = some true then !asc else asc
    { rows := List.insertionSort (compLe cmp c dir) s.rows
      markers := (s.markers.map fun _ => none).set c (some dir) }

/-- Number of columns carrying an active sort marker. -/
def markerCount (s : SortState) : ℕ :=
  s.markers.countP fun m => m.isSome

/-! ### The `table.properties` proxy store (tablejs.js lines 227-247) -/

/-- A JS value as stored in `table.properties`. An `obj` carries a
reference identity `id` alongside its own (string-valued) fields; `===`
on objects compares the identity, never the fields. -/
inductive JSVal where
  | num (n : ℤ)
  | str (s : List Char)
  | bool (b : Bool)
  | undef
  | obj (id : ℕ) (fields : List (List Char × List Char))
deriving DecidableEq, Repr

/-- JS strict equality `===`: by value on primitives, by reference on
objects. -/
def jsStrictEq : JSVal → JSVal → Bool
  | JSVal.num a, JSVal.num b => a == b
  | JSVal.str a, JSVal.str b => a == b
  | JSVal.bool a, JSVal.bool b => a == b
  | JSVal.undef, JSVal.undef => true
  | JSVal.obj i _, JSVal.obj j _ => i == j
  | _, _ => false

/-- Shallow equality: like `===` on primitives, but objects compare by
their top-level fields instead of by reference. -/
def shallowEq : JSVal → JSVal → Bool
  | JSVal.obj _ f, JSVal.obj _ g => f == g
  | a, b => jsStrictEq a b

/-- The property table behind the proxy. -/
structure Store where
  props : List (List Char × JSVal)
deriving DecidableEq, Repr

/-- `target[property]` (an absent property reads as `undefined`). -/
def getProp (s : Store) (p : List Char) : JSVal :=
  ((s.props.find? fun kv => kv.1 == p).map Prod.snd).getD JSVal.undef

/-- `target[property] = value` on the association list. -/
def updateAssoc {β : Type} (l : List (List Char × β)) (k : List Char) (v : β) :
    List (List Char × β) :=
  if l.any fun kv => kv.1 == k then
    l.map fun kv => if kv.1 == k then (k, v) else kv
  else l ++ [(k, v)]

/-- The proxy `set` trap: if `previousValue !== value` the property is
committed and `propertiesListener` is invoked once, synchronously, with
the property and value; otherwise nothing happens. The returned list is
the sequence of listener invocations the call performs. -/
def storeSet (s : Store) (p : List Char) (v : JSVal) :
    Store × List (List Char × JSVal) :=
  let prev := getProp s p
  if jsStrictEq prev v then (s, [])
  else ({ props := updateAssoc s.props p v }, [(p, v)])

/-! ### The validation engine (`validateVariable`, lines 2336-2865) -/

/-- `typeof` on the modelled values. -/
def typeOfVal : JSVal → List Char
  | JSVal.num _ => "number".toList
  | JSVal.str _ => "string".toList
  | JSVal.bool _ => "boolean".toList
  | JSVal.undef => "undefined".toList
  | JSVal.obj _ _ => "object".toList

/-- A single condition object of the rule DSL (the tagged variant the
`logicalCallback` dispatcher interprets). `executeC` carries the
arbitrary predicate of an `execute` or `instanceOf` rule (prototype
chains are outside the value model, so `instanceof` is an opaque
predicate of the value, like `execute`). -/
inductive Cond where
  | typeOfC (types : List (List Char))
  | inC (vals : List JSVal)
  | hasC (keys : List (List Char))
  | equalsC (v : JSVal)
  | strictEqualsC (v : JSVal)
  | executeC (f : JSVal → Bool)

/-- `logicalCallback(value, cond, strict)`: evaluates one condition;
`strict` makes `typeOf` require every listed type (used for `$and`
members). -/
def evalCond (v : JSVal) (c : Cond) (strict : Bool) : Bool :=
  match c with
  | Cond.typeOfC types =>
    if strict then types.all fun t => typeOfVal v == t
    else types.any fun t => typeOfVal v == t
  | Cond.inC vals => vals.any fun w => jsStrictEq v w
  | Cond.hasC keys =>
    match v with
    | JSVal.obj _ fields =>
      if strict then keys.all fun k => fields.any fun kv => kv.1 == k
      else keys.any fun k => fields.any fun kv => kv.1 == k
    | _ => false
  | Cond.equalsC w => jsStrictEq v w
  | Cond.strictEqualsC w => jsStrictEq v w
  | Cond.executeC f => f v

/-- `validateLogicalOr`: at least one condition passes (non-strict). -/
def validateLogicalOr (v : JSVal) (cs : List Cond) : Bool :=
  cs.any fun c => evalCond v c false

/-- `validateLogicalAnd`: every condition passes (strict). -/
def validateLogicalAnd (v : JSVal) (cs : List Cond) : Bool :=
  cs.all fun c => evalCond v c true

/-- The `$fallback` attachment: a plain replacement value, or a function
of the original value. -/
inductive Fallback where
  | value (v : JSVal)
  | fn (f : JSVal → JSVal)

/-- The `$transform` attachment (the source also passes plain values,
e.g. `$transform: rowLength`). -/
inductive Transform where
  | value (v : JSVal)
  | fn (f : JSVal → JSVal)

/-- The structured payload of a thrown `TableJSError`: which check
failed, for which variable; for `$or`/`$and` failures it carries every
condition with its pass/fail marker, as composed by
`$and.map(validationCallback(...))`. -/
inductive VError where
  | orFail (varName : List Char) (entries : List (Cond × Bool))
  | andFail (varName : List Char) (entries : List (Cond × Bool))
  | typeOfFail (varName : List Char)
  | inFail (varName : List Char)
  | hasFail (varName : List Char)
  | equalsFail (varName : List Char)
  | strictEqualsFail (varName : List Char)
  | executeFail (varName : List Char)
  | patternFail (varName : List Char)

/-- The rule-set argument of `validateVariable` (each key optional, as
in the source's destructuring). -/
structure Validations where
  variableName : Option (List Char) := none
  orQ : Option (List Cond) := none
  andQ : Option (List Cond) := none
  typeOfQ : Option (List (List Char)) := none
  inQ : Option (List JSVal) := none
  hasQ : Option (List (List Char)) := none
  equalsQ : Option JSVal := none
  strictEqualsQ : Option JSVal := none
  executeQ : Option (JSVal → Bool) := none
  patternQ : Option (JSVal → Bool) := none
  fallbackQ : Option Fallback := none
  transformQ : Option Transform := none

/-- `variableName ?? "variable"`. -/
def varNameOf (s : Validations) : List Char :=
  s.variableName.getD "variable".toList

/-- The first failing check, in the source's order (`$or`, `$and`,
`typeOf`, `in`, `has`, `equals`, `strictEquals`, `execute`, `pattern`);
`none` when every supplied check passes. -/
def firstFailure (v : JSVal) (s : Validations) : Option VError :=
  (match s.orQ with
   | some cs =>
     if validateLogicalOr v cs then none
     else some (VError.orFail (varNameOf s) (cs.map fun c => (c, evalCond v c false)))
   | none => none).or
  ((match s.andQ with
   | some cs =>
     if validateLogicalAnd v cs then none
     else some (VError.andFail (varNameOf s) (cs.map fun c => (c, evalCond v c true)))
   | none => none).or
  ((match s.typeOfQ with
   | some types =>
     if types.any fun t => typeOfVal v == t then none
     else some (VError.typeOfFail (varNameOf s))
   | none => none).or
  ((match s.inQ with
   | some vals =>
     if vals.any fun w => jsStrictEq v w then none
     else some (VError.inFail (varNameOf s))
   | none => none).or
  ((match s.hasQ with
   | some keys =>
     if evalCond v (Cond.hasC keys) false then none
     else some (VError.hasFail (varNameOf s))
   | none => none).or
  ((match s.equalsQ with
   | some w =>
     if jsStrictEq v w then none else some (VError.equalsFail (varNameOf s))
   | none => none).or
  ((match s.strictEqualsQ with
   | some w =>
     if jsStrictEq v w then none
     else some (VError.strictEqualsFail (varNameOf s))
   | none => none).or
  ((match s.executeQ with
   | some f => if f v then none else some (VError.executeFail (varNameOf s))
   | none => none).or
  (match s.patternQ with
   | some f => if f v then none else some (VError.patternFail (varNameOf s))
   | none => none))))))))

/-- Applies `$transform` (function, or plain replacement value). -/
def applyTransform (t : Transform) (v : JSVal) : JSVal :=
  match t with
  | Transform.fn f => f v
  | Transform.value w => w

/-- `validateVariable(value, validations)`: on the first failing check,
`validateFallback` either throws (`Except.error`, no `$fallback`),
returns `$fallback(value)` (function fallback), or returns the fallback
value; when everything passes, `$transform` is applied last. -/
def validateVariable (v : JSVal) (s : Validations) : Except VError JSVal :=
  match firstFailure v s with
  | some e =>
    match s.fallbackQ with
    | none => Except.error e
    | some (Fallback.fn f) => Except.ok (f v)
    | some (Fallback.value w) => Except.ok w
  | none =>
    match s.transformQ with
    | some t => Except.ok (applyTransform t v)
    | none => Except.ok v

/-! ### Remote dispatch and response application (`toSearch` api branch
lines 2035-2051, `toInitialize` lines 1493-1597, `HttpRequest.request`
part_000 lines 113-199)

An outgoing request carries only its payload: neither `HttpRequest` nor
the `success` callback of `toInitialize` attaches or checks any sequence
number. The `success` callback applies whatever response arrives,
whenever it arrives, replacing the rendered rows (`toRender` clears and
rebuilds the table) and `total_rows`. -/

/-- A remote response: the page rows and the reported total. -/
structure Response where
  rows : List (List (List Char))
  total_rows : ℤ
deriving DecidableEq, Repr

/-- The table state a remote refresh mutates. -/
structure RemoteTable where
  rows : List (List (List Char))
  total_rows : ℤ
  search : List Char
deriving DecidableEq, Repr

/-- Coordinator state: the table plus the in-flight request payloads in
dispatch order. -/
structure RemoteState where
  table : RemoteTable
  inflight : List (List Char)
deriving DecidableEq, Repr

/-- An event of the remote machine: a `toSearch(..., to: "api")` dispatch,
or the resolution of the in-flight request at position `idx` (requests
may resolve in any order). -/
inductive RemoteEvent where
  | dispatchSearch (kw : List Char)
  | respond (idx : ℕ) (resp : Response)
deriving Repr

/-- The `success` path of `toInitialize`: sets `total_rows` from the
response and re-renders the rows wholesale — unconditionally, with no
staleness check. -/
def applyResponse (t : RemoteTable) (r : Response) : RemoteTable :=
  { rows := r.rows, total_rows := r.total_rows, search := t.search }

/-- One step of the remote machine. A dispatch records the keyword in
`table.properties` and issues the request; a response application is
unconditional. -/
def remoteStep (s : RemoteState) : RemoteEvent → RemoteState
  | RemoteEvent.dispatchSearch kw =>
    { table := { s.table with search := kw }, inflight := s.inflight ++ [kw] }
  | RemoteEvent.respond idx resp =>
    if idx < s.inflight.length then
      { table := applyResponse s.table resp, inflight := s.inflight.eraseIdx idx }
    else s

/-- Runs a sequence of remote events. -/
def remoteRun (s : RemoteState) (es : List RemoteEvent) : RemoteState :=
  es.foldl remoteStep s

/-! ### `toSearch` state effect (lines 1925-1927 and the api branch) -/

/-- The `table.properties` record the claims read. -/
structure TableProps where
  page : ℤ
  limit : PItem
  search : List Char
deriving DecidableEq, Repr

/-- The dispatch target of an action. -/
inductive Target where
  | localT
  | apiT
deriving DecidableEq, Repr

/-- `delete data[key]`. -/
def removeKey {β : Type} (l : List (List Char × β)) (k : List Char) :
    List (List Char × β) :=
  l.filter fun kv => kv.1 ≠ k

/-- The state mutations of `toSearch`: before the target switch it
unconditionally sets `search`, `limit = DEFAULT.LIMIT` (`"*"`), and
`page = DEFAULT.PAGE` (1); the api branch additionally rewrites
`instance.api.data` (sets `search`, deletes `limit` and `page`, and
deletes `search` again when the keyword is empty). -/
def toSearchDispatch (p : TableProps) (kw : List Char) (t : Target)
    (apiData : List (List Char × List Char)) :
    TableProps × List (List Char × List Char) :=
  let next := { p with search := kw, limit := PItem.all, page := 1 }
  match t with
  | Target.localT => (next, apiData)
  | Target.apiT =>
    let d := removeKey (removeKey (updateAssoc apiData "search".toList kw)
      "limit".toList) "page".toList
    (next, if kw = [] then removeKey d "search".toList else d)

/-! ## Helper lemmas -/

theorem jsToNumberZ_zero_fb (v : ℤ) : jsToNumberZ v 0 = v := by
  unfold jsToNumberZ
  split <;> omega

/-! ## C1 — remote responses carry no sequence tag and are applied
unconditionally -/

/-- C1: the claim says a response whose sequence tag is not the current
maximum is discarded, so of two overlapping remote dispatches only the
later-dispatched one's response is ever applied. The code has no such
tagging: with dispatch `'a'` then dispatch `'b'`, the response to `'b'`
resolving first and the response to `'a'` resolving second, the code
applies the stale `'a'` response last — the table shows the earlier
dispatch's rows (while `search` already holds `'b'`). -/
theorem remote_stale_response_applied :
    (remoteRun ⟨⟨[], 0, []⟩, []⟩
      [RemoteEvent.dispatchSearch ['a'], RemoteEvent.dispatchSearch ['b'],
       RemoteEvent.respond 1 ⟨[[['B']]], 1⟩,
       RemoteEvent.respond 0 ⟨[[['A']]], 1⟩]).table
      = ⟨[[['A']]], 1, ['b']⟩ ∧
    ([[['A']]] : List (List (List Char))) ≠ [[['B']]] := by
  decide

/-! ## C3 — page clamping -/

/-- C3 counterexample: the claim says that when `pageCount` is 0 the
previous valid page is returned unchanged; with previous page 2 and page
count 0, `toLimit` computes page 0 and `processPagination` computes page
1 — neither keeps 2. -/
theorem clampPage_zero_pageCount_cex :
    toLimitPage 2 (some 0) = 0 ∧ toLimitPage 2 (some 0) ≠ 2 ∧
    processPaginationPage 2 (some 0) = 1 ∧ processPaginationPage 2 (some 0) ≠ 2 := by
  decide

/-- C3 amended: for every positive `pageCount` both clamping sites agree
with `max(1, min(requested, pageCount))` (so `clampPage(5,3) = 3` and
`clampPage(0,3) = 1`); when `pageCount` is NaN `toLimit` keeps the
previous page while `processPagination` falls back to 1; when
`pageCount` is 0 `toLimit` yields 0 and `processPagination` falls back
to 1 — the previous page is not preserved at `pageCount = 0`. -/
theorem clampPage_amended :
    (∀ r pc : ℤ, 1 ≤ pc →
      toLimitPage r (some pc) = clampPageSpec r pc ∧
      processPaginationPage r (some pc) = clampPageSpec r pc) ∧
    (∀ r : ℤ, toLimitPage r none = r ∧ processPaginationPage r none = 1) ∧
    (∀ r : ℤ, toLimitPage r (some 0) = 0 ∧ processPaginationPage r (some 0) = 1) ∧
    toLimitPage 5 (some 3) = 3 ∧ toLimitPage 0 (some 3) = 1 := by
  refine ⟨fun r pc h => ⟨?_, ?_⟩, fun r => ⟨?_, ?_⟩, fun r => ⟨?_, ?_⟩, by decide, by decide⟩
  · simp only [toLimitPage, jsMin, jsMax, clampPageSpec]
    omega
  · simp only [processPaginationPage, jsMin, jsMax, jsToNumber, jsToNumberZ, clampPageSpec]
    split <;> omega
  · rfl
  · rfl
  · simp only [toLimitPage, jsMin, jsMax]
    omega
  · simp only [processPaginationPage, jsMin, jsMax, jsToNumber, jsToNumberZ]
    split <;> omega

/-- C3 witness: the amended clamp theorem at requested page 5, page
count 3. -/
theorem clampPage_amended_witness :
    (1 : ℤ) ≤ 3 ∧ toLimitPage 5 (some 3) = clampPageSpec 5 3 ∧
    processPaginationPage 5 (some 3) = clampPageSpec 5 3 :=
  ⟨by decide, (clampPage_amended.1 5 3 (by decide)).1,
    (clampPage_amended.1 5 3 (by decide)).2⟩

/-! ## C8 — pagination ceiling -/

theorem ceil_take_core (m : ℤ) (l : List PItem) :
    (match l.findIdx? (itemGE m) with
     | some i => l.take (i + 1)
     | none => l) =
    (l.takeWhile fun x => !(itemGE m x)) ++
      ((l.dropWhile fun x => !(itemGE m x)).take 1) := by
  induction l with
  | nil => rfl
  | cons a t ih =>
    by_cases ha : itemGE m a = true
    · rw [List.findIdx?_cons, if_pos ha, List.takeWhile_cons, List.dropWhile_cons]
      simp [ha]
    · have ha' : itemGE m a = false := by
        rwa [Bool.not_eq_true] at ha
      rw [List.findIdx?_cons, if_neg ha, List.findIdx?_succ,
        List.takeWhile_cons, List.dropWhile_cons, ha']
      cases hf : t.findIdx? (itemGE m) with
      | none =>
        rw [hf] at ih
        exact congrArg (List.cons a) ih
      | some i =>
        rw [hf] at ih
        exact congrArg (List.cons a) ih

/-- C8 counterexample: the claim says the ALL sentinel, when present
among the candidates, is always retained in the result. The sentinel
compares as a tie against every number, so the stable sort leaves it
where it was listed: with candidates `[10, 25, 50, 100, ALL]` and
`n = 30` the result is `[10, 25, 50]` — ALL is dropped. -/
theorem ceiling_trailing_all_dropped_cex :
    createPaginationCeiling (some 30)
      [PItem.num 10, PItem.num 25, PItem.num 50, PItem.num 100, PItem.all]
      = [PItem.num 10, PItem.num 25, PItem.num 50] ∧
    PItem.all ∈
      [PItem.num 10, PItem.num 25, PItem.num 50, PItem.num 100, PItem.all] ∧
    PItem.all ∉ [PItem.num 10, PItem.num 25, PItem.num 50] := by
  refine ⟨by decide, by decide, by decide⟩

/-- C8 amended: `ceilingOptions(n, candidates)` stable-sorts the
candidates under the JS comparator (numeric order; the ALL sentinel ties
with everything, so it keeps its listed position) and returns the prefix
up to and including the first candidate `≥ n`, or the whole sorted
sequence when none qualifies. The ALL sentinel is retained iff its
position in the sorted sequence lies within that prefix — with the
default ordering (ALL listed first) it is always retained:
`ceilingOptions(30, [ALL, 10, 25, 50, 100]) = [ALL, 10, 25, 50]`. -/
theorem ceiling_amended :
    (∀ arr, (sortItems arr).Perm arr) ∧
    (∀ (m : ℤ) arr, createPaginationCeiling (some m) arr =
      ((sortItems arr).takeWhile fun x => !(itemGE m x)) ++
        (((sortItems arr).dropWhile fun x => !(itemGE m x)).take 1)) ∧
    (∀ arr, createPaginationCeiling none arr = arr) ∧
    createPaginationCeiling (some 30)
      [PItem.all, PItem.num 10, PItem.num 25, PItem.num 50, PItem.num 100]
      = [PItem.all, PItem.num 10, PItem.num 25, PItem.num 50] := by
  refine ⟨fun arr => List.perm_insertionSort _ _, fun m arr => ?_,
    fun arr => rfl, by decide⟩
  have hcore := ceil_take_core m (sortItems arr)
  simp only [createPaginationCeiling]
  cases hf : (sortItems arr).findIdx? (itemGE m) with
  | none =>
    rw [hf] at hcore
    rw [show arr.length = (sortItems arr).length from
      (List.length_insertionSort _ _).symm]
    rw [List.take_length]
    exact hcore
  | some i =>
    rw [hf] at hcore
    exact hcore

/-! ## C4 — search row matching (stateful global regex) -/

theorem regexTestG_true_iff (kw s : List Char) (p : ℕ) :
    (regexTestG kw s p).1 = true ↔
      ∃ i, p ≤ i ∧ i ≤ s.length ∧ occursAt kw s i = true := by
  unfold regexTestG
  cases h : findFrom kw s p with
  | none =>
    unfold findFrom at h
    refine iff_of_false (by simp) ?_
    rintro ⟨i, hpi, hil, hocc⟩
    have hmem : i ∈ List.range' p (s.length + 1 - p) := by
      rw [List.mem_range']
      exact ⟨i - p, by omega, by omega⟩
    exact List.find?_eq_none.mp h i hmem hocc
  | some i =>
    unfold findFrom at h
    refine iff_of_true rfl ?_
    have hocc := List.find?_some h
    have hmem := List.mem_of_find?_eq_some h
    rw [List.mem_range'] at hmem
    obtain ⟨j, hj, rfl⟩ := hmem
    exact ⟨p + 1 * j, by omega, by omega, hocc⟩

theorem regexTestG_nil_kw (s : List Char) : regexTestG [] s 0 = (true, 0) := by
  unfold regexTestG findFrom
  have hn : s.length + 1 - 0 = s.length + 1 := by omega
  rw [hn, List.range'_succ]
  simp [List.find?_cons, occursAt, lowerL, List.isPrefixOf]

theorem searchVerdicts_nil_kw (ex : List ℕ) (rows : List SRow) :
    searchVerdicts [] ex rows 0 = List.replicate rows.length true := by
  induction rows with
  | nil => rfl
  | cons r rs ih =>
    show (regexTestG [] (rowText ex r) 0).1 ::
        searchVerdicts [] ex rs (regexTestG [] (rowText ex r) 0).2
      = List.replicate (r :: rs).length true
    rw [regexTestG_nil_kw]
    simp [List.replicate_succ, ih]

theorem regexTestG_zero_eq_containsCI (kw t : List Char) :
    (regexTestG kw t 0).1 = containsCI kw t := by
  by_cases h : (regexTestG kw t 0).1 = true
  · obtain ⟨i, _, hle, hocc⟩ := (regexTestG_true_iff kw t 0).mp h
    rw [h]
    symm
    exact List.any_eq_true.mpr ⟨i, List.mem_range.mpr (by omega), hocc⟩
  · rw [Bool.not_eq_true] at h
    rw [h]
    symm
    rw [← Bool.not_eq_true]
    intro hcon
    obtain ⟨i, hmem, hocc⟩ := List.any_eq_true.mp hcon
    rw [List.mem_range] at hmem
    have : (regexTestG kw t 0).1 = true :=
      (regexTestG_true_iff kw t 0).mpr ⟨i, Nat.zero_le _, by omega, hocc⟩
    rw [h] at this
    exact Bool.false_ne_true this

/-- C4 counterexample: the claim says two rows with identical
non-excluded cell text always receive the same match verdict (and a row
is matched iff the keyword occurs in its text). With keyword `"an"` over
two identical rows whose single cell text is `"an"`, the reused
global-flag regex matches the first row (advancing its `lastIndex` to 2)
and then fails on the second, identical row. -/
theorem search_identical_rows_differ_cex :
    searchVerdicts ['a', 'n'] []
      [⟨false, [⟨['a', 'n'], true⟩]⟩, ⟨false, [⟨['a', 'n'], true⟩]⟩] 0
      = [true, false] ∧
    containsCI ['a', 'n'] (rowText [] ⟨false, [⟨['a', 'n'], true⟩]⟩) = true := by
  constructor
  · decide
  · decide

/-- C4 amended: the search regex is created once with the global flag
and reused across rows, so a row is matched iff the keyword occurs
case-insensitively in the joined non-excluded cell text at or after the
`lastIndex` carried over from the previous rows (after a match the
offset moves past the match; after a miss it resets to 0). The empty
keyword still matches every row, and the first row of a run is matched
iff the keyword occurs anywhere in its text — but two later rows with
identical text can receive different verdicts. -/
theorem search_match_amended :
    (∀ kw s p, (regexTestG kw s p).1 = true ↔
      ∃ i, p ≤ i ∧ i ≤ s.length ∧ occursAt kw s i = true) ∧
    (∀ ex rows, searchVerdicts [] ex rows 0 = List.replicate rows.length true) ∧
    (∀ kw ex r rows, (searchVerdicts kw ex (r :: rows) 0).head?
      = some (containsCI kw (rowText ex r))) :=
  ⟨regexTestG_true_iff, searchVerdicts_nil_kw, fun kw ex r rows => by
    show some (regexTestG kw (rowText ex r) 0).1 = _
    rw [regexTestG_zero_eq_containsCI]⟩

/-! ## C2 — search pagination summary -/

theorem countP_dummy_split (rows : List SRow) :
    (rows.countP fun r => !r.isDummy) + (rows.countP fun r => r.isDummy)
      = rows.length := by
  induction rows with
  | nil => rfl
  | cons r rs ih =>
    simp only [List.countP_cons, List.length_cons]
    cases hr : r.isDummy <;> simp <;> omega

/-- C2 counterexample: the claim says `summary.total_rows` equals the
matched count, so a search with no matches reports `total_rows = 0`.
Searching `"zzz"` over the two rows `Apple`/`Banana` matches nothing,
yet the code reports `total_rows = 2` (the tbody row count), not 0. -/
theorem toSearch_total_rows_not_matchedCount_cex :
    (toSearchLocal "zzz".toList []
      [⟨false, [⟨"Apple".toList, true⟩]⟩,
       ⟨false, [⟨"Banana".toList, true⟩]⟩]).result = 0 ∧
    (toSearchLocal "zzz".toList []
      [⟨false, [⟨"Apple".toList, true⟩]⟩,
       ⟨false, [⟨"Banana".toList, true⟩]⟩]).info.total_rows = 2 ∧
    ((2 : ℤ) ≠ 0) := by
  refine ⟨by decide, by decide, by decide⟩

/-- C2 amended: the summary of a search is
`{current_page: 1, total_page: 1, start_item: min(matchedCount, 1)}`;
`end_item` is `matchedCount` when no placeholder row was present before
the search and `max(0, matchedCount - 1)` otherwise; `total_rows` is the
number of non-placeholder tbody rows — not the matched count. A search
with zero matches leaves a placeholder row in the visible set. -/
theorem toSearch_summary_amended (kw : List Char) (ex : List ℕ)
    (rows : List SRow) (h : (rows.countP fun r => r.isDummy) ≤ 1) :
    (toSearchLocal kw ex rows).info.current_page = 1 ∧
    (toSearchLocal kw ex rows).info.total_page = 1 ∧
    (toSearchLocal kw ex rows).info.start_item
      = min (((toSearchLocal kw ex rows).result : ℤ)) 1 ∧
    (toSearchLocal kw ex rows).info.end_item
      = (if rows.any fun r => r.isDummy then
          max 0 (((toSearchLocal kw ex rows).result : ℤ) - 1)
         else ((toSearchLocal kw ex rows).result : ℤ)) ∧
    (toSearchLocal kw ex rows).info.total_rows
      = (((rows.countP fun r => !r.isDummy) : ℕ) : ℤ) ∧
    ((toSearchLocal kw ex rows).result = 0 →
      ((toSearchLocal kw ex rows).rowsAfter.any fun r => r.isDummy) = true) := by
  have hsplit := countP_dummy_split rows
  simp only [toSearchLocal, jsToNumberZ_zero_fb]
  refine ⟨trivial, trivial, trivial, trivial, ?_, ?_⟩
  · cases hdum : rows.any fun r => r.isDummy with
    | false =>
      have h0 : (rows.countP fun r => r.isDummy) = 0 := by
        by_contra hne
        obtain ⟨a, ha, hpa⟩ := List.countP_pos_iff.mp (Nat.pos_of_ne_zero hne)
        have hcon := List.any_eq_true.mpr ⟨a, ha, hpa⟩
        rw [hdum] at hcon
        exact Bool.false_ne_true hcon
      simp only [Bool.false_eq_true, if_false]
      omega
    | true =>
      have h1 : 0 < rows.countP fun r => r.isDummy := by
        obtain ⟨a, ha, hpa⟩ := List.any_eq_true.mp hdum
        exact List.countP_pos_iff.mpr ⟨a, ha, hpa⟩
      simp only [if_true]
      omega
  · intro h0
    rw [h0]
    simp only [Nat.zero_lt_one, if_true]
    cases hdum : rows.any fun r => r.isDummy with
    | false =>
      simp only [Bool.false_eq_true, if_false]
      simp [List.any_append, dummyRow]
    | true =>
      simp only [if_true]
      exact hdum

/-- C2 witness: the amended summary theorem at keyword `"a"` over a
single matching row. -/
theorem toSearch_summary_amended_witness :
    (([(⟨false, [⟨['a'], true⟩]⟩ : SRow)].countP fun r => r.isDummy) ≤ 1) ∧
    (toSearchLocal ['a'] [] [⟨false, [⟨['a'], true⟩]⟩]).info.total_rows
      = ((([(⟨false, [⟨['a'], true⟩]⟩ : SRow)].countP fun r => !r.isDummy) : ℕ) : ℤ) :=
  ⟨by decide,
    (toSearch_summary_amended ['a'] [] [⟨false, [⟨['a'], true⟩]⟩] (by decide)).2.2.2.2.1⟩

/-! ## C5 — sort click cycle -/

theorem countP_isSome_set_none (l : List Marker) (c : ℕ) :
    ((l.set c none).countP fun m => m.isSome) ≤ l.countP fun m => m.isSome := by
  induction l generalizing c with
  | nil => simp
  | cons a t ih =>
    cases c with
    | zero =>
      simp only [List.set_cons_zero, List.countP_cons]
      cases a <;> simp
    | succ n =>
      simp only [List.set_cons_succ, List.countP_cons]
      have := ih n
      omega

theorem countP_isSome_blank (l : List Marker) :
    ((l.map fun _ => (none : Marker)).countP fun m => m.isSome) = 0 := by
  induction l with
  | nil => rfl
  | cons a t ih =>
    simp only [List.map_cons, List.countP_cons]
    simp [ih]

theorem countP_clear_set_le_one (l : List Marker) (c : ℕ) (d : Bool) :
    (((l.map fun _ => none).set c (some d)).countP fun m => m.isSome) ≤ 1 := by
  induction l generalizing c with
  | nil => simp
  | cons a t ih =>
    cases c with
    | zero =>
      simp only [List.map_cons, List.set_cons_zero, List.countP_cons]
      simp [countP_isSome_blank t]
    | succ n =>
      simp only [List.map_cons, List.set_cons_succ, List.countP_cons]
      have := ih n
      simp only [Option.isSome_none, Bool.false_eq_true, if_false]
      omega

theorem markerAt_isSome_lt (s : SortState) (c : ℕ) (b : Bool)
    (h : markerAt s c = some b) : c < s.markers.length := by
  by_contra hge
  push_neg at hge
  unfold markerAt at h
  rw [List.getD_eq_getElem?_getD, List.getElem?_eq_none hge] at h
  simp at h

/-- C5: clicking a sortable column whose marker is DESCENDING restores
the rows to the original ingestion order (ascending by `row.index`) and
clears that column's marker back to none; a comparator click clears
every sibling column's marker before installing the new one; and every
click preserves the invariant that at most one column carries an active
marker. -/
theorem toSort_click_spec (asc : Bool) (cmp : List Char → List Char → ℤ)
    (s : SortState) (c : ℕ) (orig : List SortRow)
    (hperm : s.rows.Perm orig)
    (hsorted : orig.Pairwise fun a b => a.index < b.index)
    (hcount : markerCount s ≤ 1) :
    (markerAt s c = some false →
      (clickSort asc cmp s c).rows = orig ∧
      markerAt (clickSort asc cmp s c) c = none) ∧
    (markerAt s c ≠ some false → ∀ j, j ≠ c →
      markerAt (clickSort asc cmp s c) j = none) ∧
    markerCount (clickSort asc cmp s c) ≤ 1 := by
  refine ⟨?_, ?_, ?_⟩
  · intro hdesc
    have hc : c < s.markers.length := markerAt_isSome_lt s c false hdesc
    have hres : clickSort asc cmp s c =
        { rows := List.insertionSort idxLe s.rows
          markers := s.markers.set c none } := by
      unfold clickSort
      rw [if_pos hdesc]
    constructor
    · rw [hres]
      have hsortedorig : List.Sorted idxLe orig :=
        hsorted.imp fun h => Nat.le_of_lt h
      have hsorted1 : List.Sorted idxLe (List.insertionSort idxLe s.rows) :=
        List.sorted_insertionSort idxLe s.rows
      have hpermsort : (List.insertionSort idxLe s.rows).Perm orig :=
        (List.perm_insertionSort idxLe s.rows).trans hperm
      have hnodup : (orig.map SortRow.index).Nodup :=
        List.pairwise_map.mpr (hsorted.imp fun h => Nat.ne_of_lt h)
      refine List.Perm.eq_of_sorted ?_ hsorted1 hsortedorig hpermsort
      intro a b ha hb h1 h2
      exact List.inj_on_of_nodup_map hnodup (hpermsort.subset ha) hb
        (Nat.le_antisymm h1 h2)
    · rw [hres]
      unfold markerAt
      rw [List.getD_eq_getElem?_getD, List.getElem?_set_self hc]
      rfl
  · intro hne j hj
    unfold clickSort
    rw [if_neg hne]
    unfold markerAt
    rw [List.getD_eq_getElem?_getD, List.getElem?_set_ne (fun hcj => hj hcj.symm),
      List.getElem?_map]
    cases s.markers[j]? <;> rfl
  · unfold clickSort
    by_cases hdesc : markerAt s c = some false
    · rw [if_pos hdesc]
      exact le_trans (countP_isSome_set_none s.markers c) hcount
    · rw [if_neg hdesc]
      exact countP_clear_set_le_one s.markers c _

/-- C5 witness: the click theorem on a two-row table whose only column
is in the DESCENDING state. -/
theorem toSort_click_spec_witness :
    markerAt ⟨[⟨1, [['b']]⟩, ⟨0, [['a']]⟩], [some false]⟩ 0 = some false ∧
    (clickSort true (fun _ _ => 0)
      ⟨[⟨1, [['b']]⟩, ⟨0, [['a']]⟩], [some false]⟩ 0).rows
      = [⟨0, [['a']]⟩, ⟨1, [['b']]⟩] ∧
    markerAt (clickSort true (fun _ _ => 0)
      ⟨[⟨1, [['b']]⟩, ⟨0, [['a']]⟩], [some false]⟩ 0) 0 = none ∧
    markerCount (clickSort true (fun _ _ => 0)
      ⟨[⟨1, [['b']]⟩, ⟨0, [['a']]⟩], [some false]⟩ 0) ≤ 1 := by
  have h := toSort_click_spec true (fun _ _ => 0)
    ⟨[⟨1, [['b']]⟩, ⟨0, [['a']]⟩], [some false]⟩ 0
    [⟨0, [['a']]⟩, ⟨1, [['b']]⟩] (by decide) (by decide) (by decide)
  exact ⟨by decide, (h.1 (by decide)).1, (h.1 (by decide)).2, h.2.2⟩

/-! ## C6 — the property store notifies on strict, not shallow, change -/

theorem find?_map_key {β : Type} (l : List (List Char × β)) (k : List Char)
    (v : β) (h : (l.any fun kv => kv.1 == k) = true) :
    ((l.map fun kv => if kv.1 == k then (k, v) else kv).find?
      fun kv => kv.1 == k) = some (k, v) := by
  induction l with
  | nil => simp at h
  | cons a t ih =>
    rw [List.map_cons]
    by_cases ha : (a.1 == k) = true
    · rw [if_pos ha, List.find?_cons_of_pos]
      simp
    · have ht : (t.any fun kv => kv.1 == k) = true := by
        rcases List.any_eq_true.mp h with ⟨x, hx, hpx⟩
        rcases List.mem_cons.mp hx with rfl | hxt
        · exact absurd hpx ha
        · exact List.any_eq_true.mpr ⟨x, hxt, hpx⟩
      rw [if_neg ha, List.find?_cons_of_neg]
      · exact ih ht
      · exact ha

theorem find?_append_self {β : Type} (l : List (List Char × β)) (k : List Char)
    (v : β) (h : (l.any fun kv => kv.1 == k) = false) :
    ((l ++ [(k, v)]).find? fun kv => kv.1 == k) = some (k, v) := by
  induction l with
  | nil =>
    rw [List.nil_append, List.find?_cons_of_pos]
    simp
  | cons a t ih =>
    simp only [List.any_cons, Bool.or_eq_false_iff] at h
    rw [List.cons_append, List.find?_cons_of_neg]
    · exact ih h.2
    · simp [h.1]

theorem getProp_updateAssoc (s : Store) (k : List Char) (v : JSVal) :
    getProp ⟨updateAssoc s.props k v⟩ k = v := by
  unfold getProp updateAssoc
  by_cases h : (s.props.any fun kv => kv.1 == k) = true
  · rw [if_pos h, find?_map_key s.props k v h]
    rfl
  · rw [if_neg h, find?_append_self s.props k v (by rwa [Bool.not_eq_true] at h)]
    rfl

/-- C6 counterexample: the claim says `set(property, value)` is a no-op
(no mutation, no notification) whenever `value` is shallow-equal to the
current value. Setting `filters` to a fresh object with identical fields
is shallow-equal, yet the proxy (which compares with `!==`, i.e. by
reference) commits it and invokes the listener. -/
theorem storeSet_shallowEqual_notifies_cex :
    shallowEq (getProp ⟨[(['f'], JSVal.obj 0 [(['s'], ['a'])])]⟩ ['f'])
      (JSVal.obj 1 [(['s'], ['a'])]) = true ∧
    (storeSet ⟨[(['f'], JSVal.obj 0 [(['s'], ['a'])])]⟩ ['f']
      (JSVal.obj 1 [(['s'], ['a'])])).2
      = [(['f'], JSVal.obj 1 [(['s'], ['a'])])] ∧
    (storeSet ⟨[(['f'], JSVal.obj 0 [(['s'], ['a'])])]⟩ ['f']
      (JSVal.obj 1 [(['s'], ['a'])])).1
      ≠ ⟨[(['f'], JSVal.obj 0 [(['s'], ['a'])])]⟩ := by
  refine ⟨by decide, by decide, by decide⟩

/-- C6 amended: the proxy `set` trap compares with `!==` (strict
equality: by value on primitives, by reference on objects), not shallow
equality: it is a no-op exactly when the new value is strictly equal to
the current one, and otherwise commits the value and synchronously
invokes the listener exactly once with `(property, value)`; a
shallow-equal but referentially distinct object still notifies. -/
theorem storeSet_amended (s : Store) (p : List Char) (v : JSVal) :
    (jsStrictEq (getProp s p) v = true → storeSet s p v = (s, [])) ∧
    (jsStrictEq (getProp s p) v = false →
      getProp (storeSet s p v).1 p = v ∧ (storeSet s p v).2 = [(p, v)]) := by
  constructor
  · intro h
    unfold storeSet
    rw [if_pos h]
  · intro h
    unfold storeSet
    rw [if_neg (by simp [h])]
    exact ⟨getProp_updateAssoc s p v, rfl⟩

/-- C6 witness: re-setting a primitive property to its current value is
a no-op of the store. -/
theorem storeSet_amended_witness :
    jsStrictEq (getProp ⟨[(['p'], JSVal.num 1)]⟩ ['p']) (JSVal.num 1) = true ∧
    storeSet ⟨[(['p'], JSVal.num 1)]⟩ ['p'] (JSVal.num 1)
      = (⟨[(['p'], JSVal.num 1)]⟩, []) :=
  ⟨by decide, (storeSet_amended ⟨[(['p'], JSVal.num 1)]⟩ ['p'] (JSVal.num 1)).1
    (by decide)⟩

/-! ## C7 — filter semantics: AND over entries, OR over cells -/

/-- C7: a row passes `toFilter` iff for every non-empty entry of the
filter mapping at least one non-excluded cell of the row matches the
entry's value as a case-insensitive (escaped, hence literal) pattern;
the scan is positional-agnostic (any cell may satisfy any entry) and
empty-string filter values impose no constraint. Stated for rows whose
cells are all visible. -/
theorem toFilter_and_of_ors (filters : List (List Char × List Char))
    (ex : List ℕ) (r : SRow)
    (hvis : ∀ cell ∈ r.cells, cell.visible = true) :
    toFilterVerdict filters ex r = true ↔
      ∀ kv ∈ filters, kv.2 ≠ [] →
        ∃ q ∈ r.cells.enum, q.1 ∉ ex ∧ containsCI kv.2 q.2.text = true := by
  unfold toFilterVerdict
  rw [List.all_eq_true]
  constructor
  · intro h kv hkv hne
    have hpat : kv.2 ∈ (filters.map Prod.snd).filter fun w => !w.isEmpty := by
      rw [List.mem_filter]
      refine ⟨List.mem_map.mpr ⟨kv, hkv, rfl⟩, ?_⟩
      simp [List.isEmpty_iff, hne]
    have hany := h kv.2 hpat
    rw [List.any_eq_true] at hany
    obtain ⟨t, ht, hct⟩ := hany
    rw [List.mem_map] at ht
    obtain ⟨⟨i, cell⟩, hq, rfl⟩ := ht
    rw [List.mem_filter] at hq
    obtain ⟨hqmem, hqcond⟩ := hq
    simp only [Bool.and_eq_true, Bool.not_eq_true'] at hqcond
    refine ⟨(i, cell), hqmem, ?_, hct⟩
    intro hmem
    have hco : List.elem i ex = true := List.elem_iff.mpr hmem
    have : List.elem i ex = false := hqcond.1
    rw [this] at hco
    exact Bool.false_ne_true hco
  · intro h pat hpat
    rw [List.mem_filter] at hpat
    obtain ⟨hmap, hpe⟩ := hpat
    rw [List.mem_map] at hmap
    obtain ⟨kv, hkv, rfl⟩ := hmap
    have hne : kv.2 ≠ [] := by simpa [List.isEmpty_iff] using hpe
    obtain ⟨⟨i, cell⟩, hq, hnotex, hct⟩ := h kv hkv hne
    rw [List.any_eq_true]
    refine ⟨cell.text, ?_, hct⟩
    rw [List.mem_map]
    refine ⟨(i, cell), ?_, rfl⟩
    rw [List.mem_filter]
    refine ⟨hq, ?_⟩
    have hlt := List.mem_enum (h := hq)
    have hv : cell.visible = true := by
      have hmemc : cell ∈ r.cells := by
        rcases hlt with ⟨hi, hc⟩
        rw [hc]
        exact List.getElem_mem hi
      exact hvis cell hmemc
    have hco : List.elem i ex = false := by
      cases hcc : List.elem i ex with
      | false => rfl
      | true => exact absurd (List.elem_iff.mp hcc) hnotex
    simp only [Bool.and_eq_true, Bool.not_eq_true']
    exact ⟨hco, hv⟩

/-- C7 witness: a one-entry filter over a one-cell row that matches. -/
theorem toFilter_and_of_ors_witness :
    (∀ cell ∈ (⟨false, [⟨['a'], true⟩]⟩ : SRow).cells, cell.visible = true) ∧
    toFilterVerdict [(['k'], ['a'])] [] ⟨false, [⟨['a'], true⟩]⟩ = true :=
  ⟨by decide,
    (toFilter_and_of_ors [(['k'], ['a'])] [] ⟨false, [⟨['a'], true⟩]⟩
      (by decide)).mpr (by decide)⟩

/-! ## C9 — validation fallback and error payload -/

/-- C9: whenever some declared constraint fails (there is a first
failing check), `validateVariable` returns the `$fallback` value, or the
result of invoking a `$fallback` function with the original value,
instead of failing; without a fallback it fails with the structured
error of the first failing check — and for a failing `$and` rule set
that error enumerates every condition with its pass/fail marker, every
failed predicate appearing with marker `false`. -/
theorem validateVariable_fallback_spec (v : JSVal) (s : Validations)
    (e : VError) (h : firstFailure v s = some e) :
    (∀ w, s.fallbackQ = some (Fallback.value w) →
      validateVariable v s = Except.ok w) ∧
    (∀ f, s.fallbackQ = some (Fallback.fn f) →
      validateVariable v s = Except.ok (f v)) ∧
    (s.fallbackQ = none → validateVariable v s = Except.error e) ∧
    (∀ conds, s.orQ = none → s.andQ = some conds →
      validateLogicalAnd v conds = false →
      e = VError.andFail (varNameOf s)
        (conds.map fun c => (c, evalCond v c true)) ∧
      ∀ c ∈ conds, evalCond v c true = false →
        (c, false) ∈ conds.map fun c => (c, evalCond v c true)) := by
  refine ⟨?_, ?_, ?_, ?_⟩
  · intro w hw
    unfold validateVariable
    rw [h, hw]
  · intro f hf
    unfold validateVariable
    rw [h, hf]
  · intro hn
    unfold validateVariable
    rw [h, hn]
  · intro conds hor hand hfalse
    have he : firstFailure v s
        = some (VError.andFail (varNameOf s)
          (conds.map fun c => (c, evalCond v c true))) := by
      unfold firstFailure
      rw [hor, hand]
      simp only [Option.none_or]
      rw [if_neg (by simp [hfalse])]
      rfl
    rw [h] at he
    refine ⟨Option.some.inj he, fun c hc hcf => ?_⟩
    exact List.mem_map.mpr ⟨c, hc, by rw [hcf]⟩

/-- C9 witness: a number failing a `$and: [{typeOf: "string"}]` rule set
with a plain value fallback is recovered as the fallback value. -/
theorem validateVariable_fallback_spec_witness :
    firstFailure (JSVal.num 0)
      { andQ := some [Cond.typeOfC ["string".toList]],
        fallbackQ := some (Fallback.value (JSVal.num 7)) }
      = some (VError.andFail "variable".toList
          [(Cond.typeOfC ["string".toList], false)]) ∧
    validateVariable (JSVal.num 0)
      { andQ := some [Cond.typeOfC ["string".toList]],
        fallbackQ := some (Fallback.value (JSVal.num 7)) }
      = Except.ok (JSVal.num 7) :=
  ⟨rfl,
    (validateVariable_fallback_spec (JSVal.num 0)
      { andQ := some [Cond.typeOfC ["string".toList]],
        fallbackQ := some (Fallback.value (JSVal.num 7)) }
      (VError.andFail "variable".toList
        [(Cond.typeOfC ["string".toList], false)]) rfl).1
      (JSVal.num 7) rfl⟩

/-! ## C10 — `toSearch` unconditionally resets limit and page -/

/-- C10: every `toSearch` invocation, local or api target, stores the
keyword and resets `limit` to the `"*"` (ALL) sentinel and `page` to 1
in `table.properties`. -/
theorem toSearch_resets_limit_page (p : TableProps) (kw : List Char)
    (t : Target) (d : List (List Char × List Char)) :
    (toSearchDispatch p kw t d).1.limit = PItem.all ∧
    (toSearchDispatch p kw t d).1.page = 1 ∧
    (toSearchDispatch p kw t d).1.search = kw := by
  cases t <;> simp [toSearchDispatch]

end TableJs
